import Mathlib

/-!
Shallow embedding of the GNSS multi-rover fusion core (`algoritmo.py`).

Timestamps are modelled as natural numbers (seconds; the algorithm steps one
second at a time and only ever compares, orders and increments epochs).
Real-valued measurement fields are modelled as rationals with exact
arithmetic; the integer columns `Q` and `ns` are modelled as integers.
Fallible operations (a pandas `.loc` lookup of a missing epoch, a missing
threshold-table entry, an interpolation neighbour that does not exist) are
modelled with `Option`, `none` standing for the raised Python exception.
-/

attribute [local semireducible] Rat.add Rat.mul Rat.inv Rat.sub

namespace GNSSPos

/-- One row of a rover DataFrame: the columns
`x-ecef(m), y-ecef(m), z-ecef(m), Q, ns, sdx(m), sdy(m), sdz(m),
sdxy(m), sdyz(m), sdzx(m), age(s), ratio` (the `GPST` index is kept
outside the record, as the key of the series). -/
structure PosRecord where
  x : ℚ
  y : ℚ
  z : ℚ
  q : ℤ
  ns : ℤ
  sdx : ℚ
  sdy : ℚ
  sdz : ℚ
  sdxy : ℚ
  sdyz : ℚ
  sdzx : ℚ
  age : ℚ
  ratio : ℚ
deriving DecidableEq

/-- A rover DataFrame indexed by `GPST`: an association list from epoch
(seconds) to row.  Keys are the DataFrame index. -/
abbrev Series := List (Nat × PosRecord)

/-- `df.loc[t]` as a total function: `some` row when the epoch is in the
index, `none` for the `KeyError` case.  Also models `t in df.index`. -/
def getAt : Series → Nat → Option PosRecord
  | [], _ => none
  | (k, r) :: rest, t => if k = t then some r else getAt rest t

/-- `df.loc[t] = row`: replace the row at an existing epoch, or append a new
epoch to the index. -/
def setAt : Series → Nat → PosRecord → Series
  | [], t, r => [(t, r)]
  | (k, x) :: rest, t, r =>
    if k = t then (t, r) :: rest else (k, x) :: setAt rest t r

/-- The `GPST` index of a DataFrame. -/
def keys (s : Series) : List Nat := s.map Prod.fst

/-- Minimum of a list of epochs (`df.index.min()`): `none` on an empty
index (pandas `NaT`). -/
def minKey? : List Nat → Option Nat
  | [] => none
  | k :: ks =>
    match minKey? ks with
    | none => some k
    | some m => some (min k m)

/-- Maximum of a list of epochs (`df.index.max()`): `none` on an empty
index (pandas `NaT`). -/
def maxKey? : List Nat → Option Nat
  | [] => none
  | k :: ks =>
    match maxKey? ks with
    | none => some k
    | some m => some (max k m)

/-- `df.index[df.index < t].max()`: the nearest epoch of the series strictly
before `t`, `none` (pandas `NaT`) when there is none. -/
def prevEpoch (s : Series) (t : Nat) : Option Nat :=
  maxKey? ((keys s).filter (fun k => k < t))

/-- `df.index[df.index > t].min()`: the nearest epoch of the series strictly
after `t`, `none` (pandas `NaT`) when there is none. -/
def nextEpoch (s : Series) (t : Nat) : Option Nat :=
  minKey? ((keys s).filter (fun k => t < k))

/-- One step of the `min_gpst` computation of the pre-loop scan.  The
Python code seeds `min_gpst = 0` (an `int` sentinel); after the first
assignment the value is a `Timestamp` and `min_gpst == 0` is always false,
so the sentinel acts exactly like an `Option` that is `none` until the
first series is seen, and then folds with `min`.  (An empty DataFrame
yields `NaT` in pandas; all claims assume non-empty series, and here an
empty index simply leaves the accumulator unchanged.) -/
def minStep (acc : Option Nat) (df : Series) : Option Nat :=
  match acc with
  | none => minKey? (keys df)
  | some a =>
    match minKey? (keys df) with
    | none => some a
    | some b => some (min a b)

/-- One step of the `max_gpst` scan, with the same conventions. -/
def maxStep (acc : Option Nat) (df : Series) : Option Nat :=
  match acc with
  | none => maxKey? (keys df)
  | some a =>
    match maxKey? (keys df) with
    | none => some a
    | some b => some (max a b)

/-- The full `min_gpst` scan over all rover DataFrames. -/
def min_gpst (dataframes : List Series) : Option Nat :=
  dataframes.foldl minStep none

/-- The full `max_gpst` scan over all rover DataFrames. -/
def max_gpst (dataframes : List Series) : Option Nat :=
  dataframes.foldl maxStep none

/-- Squared 3-D Euclidean distance between two rows
(`(xI-xJ)**2 + (yI-yJ)**2 + (zI-zJ)**2`). -/
def dist2 (a b : PosRecord) : ℚ :=
  (a.x - b.x) ^ 2 + (a.y - b.y) ^ 2 + (a.z - b.z) ^ 2

/-- The comparison `np.sqrt(d2) > thr` of the validity check, expressed
without square roots over ℚ: for a real `d2 ≥ 0`, `√d2 > thr` holds iff
`thr < 0` or `thr² < d2`. -/
def exceeds (d2 thr : ℚ) : Bool :=
  if thr < 0 then true else decide (thr ^ 2 < d2)

/-- `dataframes[k]` (rover indices are positions in the rover list; an
out-of-range index, which the loops never produce, yields the empty
series). -/
def seriesAt (dataframes : List Series) (k : Nat) : Series :=
  dataframes.getD k []

/-- Inner loop of the validity check (`for kJ, vJ in enumerate(rovers)` with
`kI < kJ`): for every later rover `kJ`, mark `kJ` invalid when its epoch is
missing, otherwise look up the pair threshold (a missing entry is the
`KeyError`, i.e. `none`) and on a distance violation mark both `kI` and
`kJ` invalid.  The accumulator is the `invalid_rovers` set. -/
def innerLoop (dataframes : List Series) (thesholds : Nat → Nat → Option ℚ)
    (t kI : Nat) (rI : PosRecord) :
    List Nat → Finset Nat → Option (Finset Nat)
  | [], inv => some inv
  | kJ :: rest, inv =>
    if kI < kJ then
      match getAt (seriesAt dataframes kJ) t with
      | none => innerLoop dataframes thesholds t kI rI rest (insert kJ inv)
      | some rJ =>
        match thesholds kI kJ with
        | none => none
        | some thr =>
          if exceeds (dist2 rI rJ) thr then
            innerLoop dataframes thesholds t kI rI rest (insert kJ (insert kI inv))
          else
            innerLoop dataframes thesholds t kI rI rest inv
    else innerLoop dataframes thesholds t kI rI rest inv

/-- Outer loop of the validity check (`for kI, vI in enumerate(rovers)`):
a rover whose series lacks the current epoch is marked invalid; otherwise
its row is compared against every later rover by `innerLoop`. -/
def outerLoop (dataframes : List Series) (thesholds : Nat → Nat → Option ℚ)
    (t : Nat) : List Nat → Finset Nat → Option (Finset Nat)
  | [], inv => some inv
  | kI :: rest, inv =>
    match getAt (seriesAt dataframes kI) t with
    | none => outerLoop dataframes thesholds t rest (insert kI inv)
    | some rI =>
      match innerLoop dataframes thesholds t kI rI (List.range dataframes.length) inv with
      | none => none
      | some inv' => outerLoop dataframes thesholds t rest inv'

/-- The cross-rover validity check at epoch `t` (lines 131–163): returns the
set `invalid_rovers`, or `none` when a threshold lookup raised. -/
def checkValidity (dataframes : List Series) (thesholds : Nat → Nat → Option ℚ)
    (t : Nat) : Option (Finset Nat) :=
  outerLoop dataframes thesholds t (List.range dataframes.length) ∅

/-- The row of all-zero accumulators the boundary synthesis starts from
(`new_row[...] = 0` for every column). -/
def zeroRow : PosRecord :=
  { x := 0, y := 0, z := 0, q := 0, ns := 0, sdx := 0, sdy := 0, sdz := 0,
    sdxy := 0, sdyz := 0, sdzx := 0, age := 0, ratio := 0 }

/-- One accumulation step of the boundary synthesis over a valid rover's
row: positions are summed (the mean's division happens afterwards),
std-devs/covariances take the running maximum, `Q` the running minimum,
`ns`, `age`, `ratio` the running maximum. -/
def accRow (a r : PosRecord) : PosRecord :=
  { x := a.x + r.x, y := a.y + r.y, z := a.z + r.z,
    q := min a.q r.q, ns := max a.ns r.ns,
    sdx := max a.sdx r.sdx, sdy := max a.sdy r.sdy, sdz := max a.sdz r.sdz,
    sdxy := max a.sdxy r.sdxy, sdyz := max a.sdyz r.sdyz, sdzx := max a.sdzx r.sdzx,
    age := max a.age r.age, ratio := max a.ratio r.ratio }

/-- The boundary-branch fold over `enumerate(dataframes)`: rovers in the
invalid set are skipped, every other rover contributes its row at `t`
through `accRow` (a valid rover missing the epoch would be a pandas
`KeyError`, i.e. `none` — it cannot happen after the availability check). -/
def boundaryFold (invalid : Finset Nat) (t : Nat) :
    List (Nat × Series) → PosRecord → Option PosRecord
  | [], acc => some acc
  | (kDf, df) :: rest, acc =>
    if kDf ∈ invalid then boundaryFold invalid t rest acc
    else
      match getAt df t with
      | none => none
      | some r => boundaryFold invalid t rest (accRow acc r)

/-- The boundary branch of gap repair (`current_gpst == min_gpst` and a
single invalid rover, lines 178–226): synthesize a row from all valid
rovers — positions averaged over `len(rovers) - len(invalid_rovers)` —
and write it into rover `r`'s series at `t`. -/
def boundaryRepair (dataframes : List Series) (invalid : Finset Nat)
    (t r : Nat) : Option (List Series) :=
  match boundaryFold invalid t dataframes.enum zeroRow with
  | none => none
  | some acc =>
    let c : ℚ := ((dataframes.length - invalid.card : Nat) : ℚ)
    let row := { acc with x := acc.x / c, y := acc.y / c, z := acc.z / c }
    some (dataframes.set r (setAt (seriesAt dataframes r) t row))

/-- The interior-branch synthesized row (lines 239–258): positions are the
elementwise average of the neighbouring rows, `Q` the minimum, `ns` the
maximum, std-devs/covariances the maximum, `age` and `ratio` the maximum. -/
def interiorSynth (prev_row next_row : PosRecord) : PosRecord :=
  { x := (prev_row.x + next_row.x) / 2,
    y := (prev_row.y + next_row.y) / 2,
    z := (prev_row.z + next_row.z) / 2,
    q := min prev_row.q next_row.q, ns := max prev_row.ns next_row.ns,
    sdx := max prev_row.sdx next_row.sdx, sdy := max prev_row.sdy next_row.sdy,
    sdz := max prev_row.sdz next_row.sdz, sdxy := max prev_row.sdxy next_row.sdxy,
    sdyz := max prev_row.sdyz next_row.sdyz, sdzx := max prev_row.sdzx next_row.sdzx,
    age := max prev_row.age next_row.age, ratio := max prev_row.ratio next_row.ratio }

/-- The interior branch of gap repair (`current_gpst > min_gpst`,
lines 227–264): take the nearest earlier and nearest later epochs of rover
`r`'s own series, synthesize the row from those two neighbours and write it
back at `t`.  A missing neighbour (pandas `NaT` then `KeyError` on `.loc`)
is `none`. -/
def interiorRepair (dataframes : List Series) (t r : Nat) :
    Option (List Series) :=
  let df := seriesAt dataframes r
  match prevEpoch df t, nextEpoch df t with
  | some p, some nx =>
    match getAt df p, getAt df nx with
    | some prev_row, some next_row =>
      some (dataframes.set r (setAt df t (interiorSynth prev_row next_row)))
    | _, _ => none
  | _, _ => none

/-- Repair dispatch for one invalid rover `r` (the branch structure of
lines 178 and 227): boundary branch when `t` is the first epoch and exactly
one rover is invalid, interior branch when `t` is past the first epoch,
and otherwise (first epoch with two or more invalid rovers) the series is
left unchanged. -/
def repairRover (dataframes : List Series) (invalid : Finset Nat)
    (tmin t r : Nat) : Option (List Series) :=
  if t = tmin ∧ invalid.card = 1 then boundaryRepair dataframes invalid t r
  else if tmin < t then interiorRepair dataframes t r
  else some dataframes

/-- The repair phase at an epoch (`for r in invalid_rovers`): each invalid
rover is repaired independently; since each repair touches only that
rover's own series, the Python set-iteration order is immaterial and the
rovers are processed in increasing index order. -/
def repairAll (dataframes : List Series) (invalid : Finset Nat)
    (tmin t : Nat) : Option (List Series) :=
  ((List.range dataframes.length).filter (fun r => r ∈ invalid)).foldlM
    (fun d r => repairRover d invalid tmin t r) dataframes

/-- The fused row built from the rows of all rovers at one epoch
(lines 270–312): per-axis inverse-variance weighted mean accumulated from
zero (`value * sd ** -2` summed, divided by the summed weights),
std-devs/covariances accumulated with `max` from the zero-initialised row,
and the `Q`, `ns`, `age`, `ratio` columns left at the zero sentinel. -/
def fuseRows (rows : List PosRecord) : PosRecord :=
  { x := (rows.foldl (fun a r => a + r.x * (r.sdx ^ 2)⁻¹) 0) /
         (rows.foldl (fun a r => a + (r.sdx ^ 2)⁻¹) 0),
    y := (rows.foldl (fun a r => a + r.y * (r.sdy ^ 2)⁻¹) 0) /
         (rows.foldl (fun a r => a + (r.sdy ^ 2)⁻¹) 0),
    z := (rows.foldl (fun a r => a + r.z * (r.sdz ^ 2)⁻¹) 0) /
         (rows.foldl (fun a r => a + (r.sdz ^ 2)⁻¹) 0),
    q := 0, ns := 0,
    sdx := rows.foldl (fun a r => max a r.sdx) 0,
    sdy := rows.foldl (fun a r => max a r.sdy) 0,
    sdz := rows.foldl (fun a r => max a r.sdz) 0,
    sdxy := rows.foldl (fun a r => max a r.sdxy) 0,
    sdyz := rows.foldl (fun a r => max a r.sdyz) 0,
    sdzx := rows.foldl (fun a r => max a r.sdzx) 0,
    age := 0, ratio := 0 }

/-- The per-rover lookups `df.loc[current_gpst]` of the fusion loops: one
row per DataFrame, in rover order; any missing row is the pandas
`KeyError`, i.e. `none`. -/
def lookupAll : List Series → Nat → Option (List PosRecord)
  | [], _ => some []
  | df :: rest, t =>
    match getAt df t with
    | none => none
    | some r =>
      match lookupAll rest t with
      | none => none
      | some rs => some (r :: rs)

/-- Weighted fusion at epoch `t`: look up every rover's row and combine
them with `fuseRows`. -/
def fuseAt (dataframes : List Series) (t : Nat) : Option PosRecord :=
  (lookupAll dataframes t).map fuseRows

/-- One iteration of the epoch loop body: validity check, repair phase
(guarded by `len(invalid_rovers) > 0`), fusion.  Returns the updated rover
series and the fused row appended to the final DataFrame, or `none` when
any stage raised. -/
def stepEpoch (dataframes : List Series) (thesholds : Nat → Nat → Option ℚ)
    (tmin t : Nat) : Option (List Series × PosRecord) :=
  match checkValidity dataframes thesholds t with
  | none => none
  | some invalid =>
    match (if 0 < invalid.card then repairAll dataframes invalid tmin t
           else some dataframes) with
    | none => none
    | some dataframes' =>
      match fuseAt dataframes' t with
      | none => none
      | some row => some (dataframes', row)

/-- The body of the epoch loop, recursing on the number of remaining
iterations: `runLoop fuel dfs t` processes the `fuel` consecutive epochs
`t, t+1, …, t+fuel-1`, threading the (repaired) rover series and
accumulating the per-epoch fused rows in order. -/
def runLoop (thesholds : Nat → Nat → Option ℚ) (tmin : Nat) :
    Nat → List Series → Nat → Option (List Series × List (Nat × PosRecord))
  | 0, dataframes, _ => some (dataframes, [])
  | fuel + 1, dataframes, t =>
    match stepEpoch dataframes thesholds tmin t with
    | none => none
    | some (dataframes', row) =>
      match runLoop thesholds tmin fuel dataframes' (t + 1) with
      | none => none
      | some (dataframes'', out) => some (dataframes'', (t, row) :: out)

/-- The epoch loop `while current_gpst < max_gpst` starting at `t`: the
loop body runs exactly once per epoch in `[t, tmax)` (the condition
`current_gpst < max_gpst` fails as soon as the epoch reaches `tmax`), so
the remaining iteration count is `tmax - t`. -/
def runFrom (thesholds : Nat → Nat → Option ℚ) (tmin : Nat)
    (dataframes : List Series) (t tmax : Nat) :
    Option (List Series × List (Nat × PosRecord)) :=
  runLoop thesholds tmin (tmax - t) dataframes t

/-- The whole `algorithm()` body: resolve the epoch window from the series
and run the epoch loop from `min_gpst` with bound `max_gpst`. -/
def algorithm (thesholds : Nat → Nat → Option ℚ) (dataframes : List Series) :
    Option (List Series × List (Nat × PosRecord)) :=
  match min_gpst dataframes, max_gpst dataframes with
  | some a, some b => runFrom thesholds a dataframes a b
  | _, _ => none

/-- The header-skip loop of `create_dataframes` (lines 51–52), over the
input lines abstracted to whether `line.strip().startswith(the column
marker)` holds:
`while not file.readline().strip().startswith(marker): next(file)`.
Each iteration `readline` consumes one line and, when it was not the
marker, `next` consumes a second one; at end of file `readline` yields the
empty string (not the marker) and `next` raises `StopIteration`, modelled
as `none`.  On success the returned lines are those following the consumed
marker line, which the body loop turns into one record each. -/
def skipHeader : List Bool → Option (List Bool)
  | [] => none
  | line :: rest =>
    if line then some rest
    else
      match rest with
      | [] => none
      | _ :: rest2 => skipHeader rest2

/-- The rows at epoch `t` of the rovers outside the invalid set, in rover
order, extracted from an enumerated rover list: the inputs the boundary
branch averages over (`none` when a valid rover misses the epoch). -/
def validRows (invalid : Finset Nat) (t : Nat) :
    List (Nat × Series) → Option (List PosRecord)
  | [] => some []
  | (k, df) :: rest =>
    if k ∈ invalid then validRows invalid t rest
    else
      match getAt df t with
      | none => none
      | some r => (validRows invalid t rest).map (r :: ·)

/-- Spec-side description of one violating pair check, following §4.3 of
the spec: rovers `i < j` both have a row at `t`, the pair has a configured
threshold, and the 3-D distance strictly exceeds it. -/
def PairViolation (dataframes : List Series) (thesholds : Nat → Nat → Option ℚ)
    (t i j : Nat) : Prop :=
  i < j ∧ j < dataframes.length ∧
    ∃ ri rj thr, getAt (seriesAt dataframes i) t = some ri ∧
      getAt (seriesAt dataframes j) t = some rj ∧
      thesholds i j = some thr ∧ exceeds (dist2 ri rj) thr = true

/-- Spec-side description of membership in the invalid set, following
§4.3 of the spec: a rover is invalid exactly when its row at `t` is
missing, or it is a member of some violating pair. -/
def InvalidSpec (dataframes : List Series) (thesholds : Nat → Nat → Option ℚ)
    (t m : Nat) : Prop :=
  (m < dataframes.length ∧ getAt (seriesAt dataframes m) t = none) ∨
    (∃ i j, PairViolation dataframes thesholds t i j ∧ (m = i ∨ m = j))

/-- The contributions of one pass of `innerLoop` over the index list `l`:
index `m` is added because some later rover `kJ ∈ l` is missing the epoch
(`m = kJ`), or because the `kI`–`kJ` distance check fails (`m` is either
endpoint). -/
def InnerHit (dataframes : List Series) (thesholds : Nat → Nat → Option ℚ)
    (t kI : Nat) (rI : PosRecord) (l : List Nat) (m : Nat) : Prop :=
  ∃ kJ ∈ l, kI < kJ ∧
    ((getAt (seriesAt dataframes kJ) t = none ∧ m = kJ) ∨
     (∃ rJ thr, getAt (seriesAt dataframes kJ) t = some rJ ∧
        thesholds kI kJ = some thr ∧ exceeds (dist2 rI rJ) thr = true ∧
        (m = kI ∨ m = kJ)))

/-- The contributions of `outerLoop` over the index list `l`: index `m` is
added because some `kI ∈ l` is missing the epoch (`m = kI`), or through
the inner pass launched from a present `kI`. -/
def OuterHit (dataframes : List Series) (thesholds : Nat → Nat → Option ℚ)
    (t : Nat) (l : List Nat) (m : Nat) : Prop :=
  ∃ kI ∈ l,
    ((getAt (seriesAt dataframes kI) t = none ∧ m = kI) ∨
     (∃ rI, getAt (seriesAt dataframes kI) t = some rI ∧
        InnerHit dataframes thesholds t kI rI (List.range dataframes.length) m))

/-! Concrete data used by the witnesses and counterexamples: small rover
series with exact rational entries. -/

/-- Helper building a row from the thirteen column values in file order. -/
def mkRow (x y z : ℚ) (q ns : ℤ)
    (sdx sdy sdz sdxy sdyz sdzx age ratio : ℚ) : PosRecord :=
  ⟨x, y, z, q, ns, sdx, sdy, sdz, sdxy, sdyz, sdzx, age, ratio⟩

/-- A pair-threshold table with every entry present and large. -/
def thrAll : Nat → Nat → Option ℚ := fun _ _ => some 100

/-- A pair-threshold table with no entries at all. -/
def thrNone : Nat → Nat → Option ℚ := fun _ _ => none

/-- Sample row at the origin with unit std-devs and `sdxy = -1`. -/
def rowA : PosRecord := mkRow 0 0 0 1 5 1 1 1 (-1) 0 0 0 0

/-- Sample row at `x = 2` with unit std-devs and `sdxy = -2`. -/
def rowB : PosRecord := mkRow 2 0 0 2 6 1 1 1 (-2) 0 0 0 0

/-- Rover series with `rowA` at epochs 0, 1 and 2. -/
def serA : Series := [(0, rowA), (1, rowA), (2, rowA)]

/-- Rover series with `rowB` at epochs 0, 1 and 2. -/
def serB : Series := [(0, rowB), (1, rowB), (2, rowB)]

/-- A rover series that is missing epoch 0 (only epoch 1 is present). -/
def serGap : Series := [(1, mkRow 5 5 5 1 5 1 1 1 0 0 0 0 0)]

/-- Valid rover for the boundary-repair scenario: `x = 100`, `sdx = 1`,
`Q = 1`. -/
def rowV1 : PosRecord := mkRow 100 0 0 1 5 1 1 1 0 0 0 0 0

/-- Valid rover for the boundary-repair scenario: `x = 102`, `sdx = 2`,
`Q = 2`. -/
def rowV2 : PosRecord := mkRow 102 0 0 2 6 2 2 2 0 0 0 0 0

/-- Series carrying `rowV1` at epochs 0 and 1. -/
def serV1 : Series := [(0, rowV1), (1, rowV1)]

/-- Series carrying `rowV2` at epochs 0 and 1. -/
def serV2 : Series := [(0, rowV2), (1, rowV2)]

/-- Series for the unrepaired-gap scenario: present at epochs 0 and 1. -/
def serW0 : Series := [(0, rowA), (1, rowA)]

/-- Series for the unrepaired-gap scenario: present only at epoch 1. -/
def serW1 : Series := [(1, rowB)]

/-- Series with a gap at epoch 2: neighbours `rowA` at epoch 1 and `rowB`
at epoch 3. -/
def serMid : Series := [(1, rowA), (3, rowB)]

/-- Row at `x = 5` with unit std-devs. -/
def rowP5 : PosRecord := mkRow 5 0 0 1 5 1 1 1 0 0 0 0 0

/-- Row at `x = 4` with unit std-devs. -/
def rowP4 : PosRecord := mkRow 4 0 0 1 5 1 1 1 0 0 0 0 0

/-- Row at `x = 6` with unit std-devs. -/
def rowP6 : PosRecord := mkRow 6 0 0 1 5 1 1 1 0 0 0 0 0

/-- `rowP5` with its `sdx` tightened to `1/2`. -/
def rowP5s : PosRecord := mkRow 5 0 0 1 5 (1/2) 1 1 0 0 0 0 0

/-! Generic lemmas about the fold patterns of the algorithm. -/

theorem foldl_add_eq {α : Type} (f : α → ℚ) :
    ∀ (l : List α) (c : ℚ), l.foldl (fun a x => a + f x) c = c + (l.map f).sum
  | [], c => by simp
  | x :: l, c => by
    rw [List.foldl_cons, foldl_add_eq f l (c + f x)]
    simp [add_assoc]

theorem le_foldl_max {α : Type} [LinearOrder α] :
    ∀ (l : List α) (b : α), b ≤ l.foldl max b
  | [], _ => le_refl _
  | x :: l, b => le_trans (le_max_left b x) (le_foldl_max l (max b x))

theorem foldl_max_le_of_mem {α : Type} [LinearOrder α] :
    ∀ (l : List α) (b x : α), x ∈ l → x ≤ l.foldl max b
  | [], _, _, hx => absurd hx (List.not_mem_nil _)
  | y :: l, b, x, hx => by
    rcases List.mem_cons.1 hx with h | h
    · subst h
      exact le_trans (le_max_right b x) (le_foldl_max l (max b x))
    · exact foldl_max_le_of_mem l (max b y) x h

theorem foldl_max_cases {α : Type} [LinearOrder α] :
    ∀ (l : List α) (b : α), l.foldl max b = b ∨ l.foldl max b ∈ l
  | [], _ => Or.inl rfl
  | y :: l, b => by
    rw [List.foldl_cons]
    rcases foldl_max_cases l (max b y) with h | h
    · rw [h]
      rcases max_choice b y with h' | h'
      · exact Or.inl h'
      · rw [h']
        exact Or.inr (List.mem_cons_self y l)
    · exact Or.inr (List.mem_cons_of_mem y h)

theorem foldl_max_mem {α : Type} [LinearOrder α] (l : List α) (b : α)
    (hne : l ≠ []) (hb : ∀ v ∈ l, b ≤ v) : l.foldl max b ∈ l := by
  rcases foldl_max_cases l b with h | h
  · rcases List.exists_mem_of_ne_nil l hne with ⟨v, hv⟩
    have h1 : v ≤ l.foldl max b := foldl_max_le_of_mem l b v hv
    have h2 : l.foldl max b ≤ v := by rw [h]; exact hb v hv
    rw [← le_antisymm h1 h2]
    exact hv
  · exact h

theorem foldl_min_eq_init {α : Type} [LinearOrder α] :
    ∀ (l : List α) (b : α), (∀ v ∈ l, b ≤ v) → l.foldl min b = b
  | [], _, _ => rfl
  | y :: l, b, h => by
    rw [List.foldl_cons, min_eq_left (h y (List.mem_cons_self y l))]
    exact foldl_min_eq_init l b (fun v hv => h v (List.mem_cons_of_mem y hv))

/-! Lemmas about series lookup and update. -/

theorem getAt_setAt_self : ∀ (s : Series) (t : Nat) (r : PosRecord),
    getAt (setAt s t r) t = some r
  | [], t, r => by simp [setAt, getAt]
  | (k, x) :: rest, t, r => by
    by_cases h : k = t
    · simp [setAt, h, getAt]
    · simp [setAt, h, getAt, getAt_setAt_self rest t r]

theorem getAt_setAt_ne (s : Series) (t u : Nat) (r : PosRecord) (h : u ≠ t) :
    getAt (setAt s t r) u = getAt s u := by
  induction s with
  | nil => simp [setAt, getAt, Ne.symm h]
  | cons kr rest ih =>
    obtain ⟨k, x⟩ := kr
    by_cases hk : k = t
    · subst hk
      simp [setAt, getAt, Ne.symm h]
    · simp only [setAt, if_neg hk, getAt]
      by_cases hk' : k = u <;> simp [hk', ih]

theorem minKey?_isSome : ∀ (ks : List Nat), ks ≠ [] → ∃ m, minKey? ks = some m
  | [], h => absurd rfl h
  | k :: ks, _ => by
    rw [minKey?]
    cases hks : minKey? ks with
    | none => exact ⟨k, rfl⟩
    | some m' => exact ⟨min k m', rfl⟩

theorem maxKey?_isSome : ∀ (ks : List Nat), ks ≠ [] → ∃ m, maxKey? ks = some m
  | [], h => absurd rfl h
  | k :: ks, _ => by
    rw [maxKey?]
    cases hks : maxKey? ks with
    | none => exact ⟨k, rfl⟩
    | some m' => exact ⟨max k m', rfl⟩

theorem minKey?_eq_some : ∀ (ks : List Nat) (m : Nat), minKey? ks = some m →
    m ∈ ks ∧ ∀ k ∈ ks, m ≤ k
  | [], m, h => by simp [minKey?] at h
  | k :: ks, m, h => by
    rw [minKey?] at h
    cases ks with
    | nil =>
      simp [minKey?] at h
      subst h
      simp
    | cons a l =>
      obtain ⟨m', hm'⟩ := minKey?_isSome (a :: l) (by simp)
      rw [hm'] at h
      simp only [Option.some.injEq] at h
      obtain ⟨hmem, hle⟩ := minKey?_eq_some (a :: l) m' hm'
      constructor
      · rcases min_choice k m' with h' | h'
        · simp [← h, h']
        · exact List.mem_cons_of_mem k (by rw [← h, h']; exact hmem)
      · intro b hb
        rcases List.mem_cons.1 hb with h' | h'
        · rw [← h, h']
          exact min_le_left k m'
        · exact le_trans (by rw [← h]; exact min_le_right k m') (hle b h')

theorem maxKey?_eq_some : ∀ (ks : List Nat) (m : Nat), maxKey? ks = some m →
    m ∈ ks ∧ ∀ k ∈ ks, k ≤ m
  | [], m, h => by simp [maxKey?] at h
  | k :: ks, m, h => by
    rw [maxKey?] at h
    cases ks with
    | nil =>
      simp [maxKey?] at h
      subst h
      simp
    | cons a l =>
      obtain ⟨m', hm'⟩ := maxKey?_isSome (a :: l) (by simp)
      rw [hm'] at h
      simp only [Option.some.injEq] at h
      obtain ⟨hmem, hle⟩ := maxKey?_eq_some (a :: l) m' hm'
      constructor
      · rcases max_choice k m' with h' | h'
        · simp [← h, h']
        · exact List.mem_cons_of_mem k (by rw [← h, h']; exact hmem)
      · intro b hb
        rcases List.mem_cons.1 hb with h' | h'
        · rw [← h, h']
          exact le_max_left k m'
        · exact le_trans (hle b h') (by rw [← h]; exact le_max_right k m')

theorem prevEpoch_eq (s : Series) (t p : Nat) (hp : p ∈ keys s) (hlt : p < t)
    (hmax : ∀ k ∈ keys s, k < t → k ≤ p) : prevEpoch s t = some p := by
  have hpl : p ∈ (keys s).filter (fun k => k < t) :=
    List.mem_filter.2 ⟨hp, by simp [hlt]⟩
  obtain ⟨m, hm⟩ := maxKey?_isSome _ (List.ne_nil_of_mem hpl)
  obtain ⟨hmem, hub⟩ := maxKey?_eq_some _ _ hm
  obtain ⟨hmk, hmt⟩ := List.mem_filter.1 hmem
  have hmt' : m < t := by simpa using hmt
  have h1 : m ≤ p := hmax m hmk hmt'
  have h2 : p ≤ m := hub p hpl
  rw [prevEpoch, hm, le_antisymm h1 h2]

theorem nextEpoch_eq (s : Series) (t p : Nat) (hp : p ∈ keys s) (hlt : t < p)
    (hmin : ∀ k ∈ keys s, t < k → p ≤ k) : nextEpoch s t = some p := by
  have hpl : p ∈ (keys s).filter (fun k => t < k) :=
    List.mem_filter.2 ⟨hp, by simp [hlt]⟩
  obtain ⟨m, hm⟩ := minKey?_isSome _ (List.ne_nil_of_mem hpl)
  obtain ⟨hmem, hlb⟩ := minKey?_eq_some _ _ hm
  obtain ⟨hmk, hmt⟩ := List.mem_filter.1 hmem
  have hmt' : t < m := by simpa using hmt
  have h1 : p ≤ m := hmin m hmk hmt'
  have h2 : m ≤ p := hlb p hpl
  rw [nextEpoch, hm, le_antisymm h2 h1]

theorem lookupAll_eq_none : ∀ (dataframes : List Series) (t i : Nat),
    i < dataframes.length → getAt (seriesAt dataframes i) t = none →
    lookupAll dataframes t = none
  | [], _, i, hi, _ => absurd hi (by simp)
  | df :: rest, t, 0, _, hmiss => by
    have : getAt df t = none := by simpa [seriesAt] using hmiss
    simp [lookupAll, this]
  | df :: rest, t, i + 1, hi, hmiss => by
    have hrec : lookupAll rest t = none :=
      lookupAll_eq_none rest t i (by simpa using hi)
        (by simpa [seriesAt] using hmiss)
    rw [lookupAll, hrec]
    cases getAt df t <;> rfl

/-! Characterization of the epoch-window scan. -/

theorem minFold_some : ∀ (l : List Series) (a : Nat), (∀ s ∈ l, keys s ≠ []) →
    ∃ m, l.foldl minStep (some a) = some m ∧
      (m = a ∨ ∃ s ∈ l, m ∈ keys s) ∧ m ≤ a ∧
      ∀ s ∈ l, ∀ k ∈ keys s, m ≤ k
  | [], a, _ => ⟨a, rfl, Or.inl rfl, le_refl a, by simp⟩
  | df :: rest, a, h => by
    obtain ⟨b, hb⟩ := minKey?_isSome (keys df) (h df (List.mem_cons_self df rest))
    obtain ⟨hbmem, hble⟩ := minKey?_eq_some _ _ hb
    have hstep : minStep (some a) df = some (min a b) := by
      rw [minStep, hb]
    obtain ⟨m, hm, hor, hle, hbound⟩ :=
      minFold_some rest (min a b)
        (fun s hs => h s (List.mem_cons_of_mem df hs))
    refine ⟨m, by rw [List.foldl_cons, hstep]; exact hm, ?_, ?_, ?_⟩
    · rcases hor with h' | ⟨s, hs, hk⟩
      · rcases min_choice a b with h'' | h''
        · exact Or.inl (by rw [h', h''])
        · exact Or.inr ⟨df, List.mem_cons_self df rest, by rw [h', h'']; exact hbmem⟩
      · exact Or.inr ⟨s, List.mem_cons_of_mem df hs, hk⟩
    · exact le_trans hle (min_le_left a b)
    · intro s hs k hk
      rcases List.mem_cons.1 hs with h' | h'
      · subst h'
        exact le_trans (le_trans hle (min_le_right a b)) (hble k hk)
      · exact hbound s h' k hk

theorem maxFold_some : ∀ (l : List Series) (a : Nat), (∀ s ∈ l, keys s ≠ []) →
    ∃ m, l.foldl maxStep (some a) = some m ∧
      (m = a ∨ ∃ s ∈ l, m ∈ keys s) ∧ a ≤ m ∧
      ∀ s ∈ l, ∀ k ∈ keys s, k ≤ m
  | [], a, _ => ⟨a, rfl, Or.inl rfl, le_refl a, by simp⟩
  | df :: rest, a, h => by
    obtain ⟨b, hb⟩ := maxKey?_isSome (keys df) (h df (List.mem_cons_self df rest))
    obtain ⟨hbmem, hble⟩ := maxKey?_eq_some _ _ hb
    have hstep : maxStep (some a) df = some (max a b) := by
      rw [maxStep, hb]
    obtain ⟨m, hm, hor, hle, hbound⟩ :=
      maxFold_some rest (max a b)
        (fun s hs => h s (List.mem_cons_of_mem df hs))
    refine ⟨m, by rw [List.foldl_cons, hstep]; exact hm, ?_, ?_, ?_⟩
    · rcases hor with h' | ⟨s, hs, hk⟩
      · rcases max_choice a b with h'' | h''
        · exact Or.inl (by rw [h', h''])
        · exact Or.inr ⟨df, List.mem_cons_self df rest, by rw [h', h'']; exact hbmem⟩
      · exact Or.inr ⟨s, List.mem_cons_of_mem df hs, hk⟩
    · exact le_trans (le_max_left a b) hle
    · intro s hs k hk
      rcases List.mem_cons.1 hs with h' | h'
      · subst h'
        exact le_trans (hble k hk) (le_trans (le_max_right a b) hle)
      · exact hbound s h' k hk

/-- C7.  For every non-empty collection of non-empty rover series, the
window scan returns `min_gpst` equal to the least timestamp occurring in
any series (the minimum over all per-series minima) and `max_gpst` equal
to the greatest timestamp occurring in any series — the union envelope of
the spans. -/
theorem min_max_gpst_envelope (dataframes : List Series)
    (h1 : dataframes ≠ []) (h2 : ∀ s ∈ dataframes, keys s ≠ []) :
    (∃ m, min_gpst dataframes = some m ∧ (∃ s ∈ dataframes, m ∈ keys s) ∧
      ∀ s ∈ dataframes, ∀ k ∈ keys s, m ≤ k) ∧
    (∃ M, max_gpst dataframes = some M ∧ (∃ s ∈ dataframes, M ∈ keys s) ∧
      ∀ s ∈ dataframes, ∀ k ∈ keys s, k ≤ M) := by
  match dataframes, h1 with
  | df :: rest, _ =>
    obtain ⟨b, hb⟩ := minKey?_isSome (keys df) (h2 df (List.mem_cons_self df rest))
    obtain ⟨hbmem, hble⟩ := minKey?_eq_some _ _ hb
    obtain ⟨c, hc⟩ := maxKey?_isSome (keys df) (h2 df (List.mem_cons_self df rest))
    obtain ⟨hcmem, hcle⟩ := maxKey?_eq_some _ _ hc
    constructor
    · obtain ⟨m, hm, hor, hle, hbound⟩ :=
        minFold_some rest b (fun s hs => h2 s (List.mem_cons_of_mem df hs))
      refine ⟨m, ?_, ?_, ?_⟩
      · rw [min_gpst, List.foldl_cons]
        have : minStep none df = some b := by rw [minStep, hb]
        rw [this]
        exact hm
      · rcases hor with h' | ⟨s, hs, hk⟩
        · exact ⟨df, List.mem_cons_self df rest, h' ▸ hbmem⟩
        · exact ⟨s, List.mem_cons_of_mem df hs, hk⟩
      · intro s hs k hk
        rcases List.mem_cons.1 hs with h' | h'
        · subst h'
          exact le_trans hle (hble k hk)
        · exact hbound s h' k hk
    · obtain ⟨m, hm, hor, hle, hbound⟩ :=
        maxFold_some rest c (fun s hs => h2 s (List.mem_cons_of_mem df hs))
      refine ⟨m, ?_, ?_, ?_⟩
      · rw [max_gpst, List.foldl_cons]
        have : maxStep none df = some c := by rw [maxStep, hc]
        rw [this]
        exact hm
      · rcases hor with h' | ⟨s, hs, hk⟩
        · exact ⟨df, List.mem_cons_self df rest, h' ▸ hcmem⟩
        · exact ⟨s, List.mem_cons_of_mem df hs, hk⟩
      · intro s hs k hk
        rcases List.mem_cons.1 hs with h' | h'
        · subst h'
          exact le_trans (hcle k hk) hle
        · exact hbound s h' k hk

/-! Interior gap repair. -/

theorem seriesAt_set_self (dataframes : List Series) (r : Nat) (s : Series)
    (hr : r < dataframes.length) : seriesAt (dataframes.set r s) r = s := by
  simp [seriesAt, List.getD_eq_getElem?_getD, List.getElem?_set_self hr]

theorem seriesAt_set_ne (dataframes : List Series) (r i : Nat) (s : Series)
    (h : i ≠ r) : seriesAt (dataframes.set r s) i = seriesAt dataframes i := by
  simp [seriesAt, List.getD_eq_getElem?_getD, List.getElem?_set_ne (Ne.symm h)]

/-- C5.  At an epoch strictly after the first, an invalid rover whose own
series has a nearest earlier record `prev_row` (at the greatest timestamp
below `t`) and a nearest later record `next_row` (at the smallest
timestamp above `t`) gets a synthesized record at `t` whose positions are
the averages of the two neighbours, whose `Q` is their minimum, and whose
`ns`, std-devs, covariances, `age` and `ratio` are their maxima; every
other rover's series is untouched, so the record is derived only from the
rover's own series. -/
theorem interior_repair_spec (dataframes : List Series) (invalid : Finset Nat)
    (tmin t r p nx : Nat) (prev_row next_row : PosRecord)
    (hr : r < dataframes.length)
    (ht : tmin < t)
    (hp : p ∈ keys (seriesAt dataframes r)) (hplt : p < t)
    (hpmax : ∀ k ∈ keys (seriesAt dataframes r), k < t → k ≤ p)
    (hpr : getAt (seriesAt dataframes r) p = some prev_row)
    (hn : nx ∈ keys (seriesAt dataframes r)) (hnlt : t < nx)
    (hnmin : ∀ k ∈ keys (seriesAt dataframes r), t < k → nx ≤ k)
    (hnr : getAt (seriesAt dataframes r) nx = some next_row) :
    ∃ dataframes',
      repairRover dataframes invalid tmin t r = some dataframes' ∧
      (∀ i, i ≠ r → seriesAt dataframes' i = seriesAt dataframes i) ∧
      ∃ row, getAt (seriesAt dataframes' r) t = some row ∧
        row.x = (prev_row.x + next_row.x) / 2 ∧
        row.y = (prev_row.y + next_row.y) / 2 ∧
        row.z = (prev_row.z + next_row.z) / 2 ∧
        row.q = min prev_row.q next_row.q ∧
        row.ns = max prev_row.ns next_row.ns ∧
        row.sdx = max prev_row.sdx next_row.sdx ∧
        row.sdy = max prev_row.sdy next_row.sdy ∧
        row.sdz = max prev_row.sdz next_row.sdz ∧
        row.sdxy = max prev_row.sdxy next_row.sdxy ∧
        row.sdyz = max prev_row.sdyz next_row.sdyz ∧
        row.sdzx = max prev_row.sdzx next_row.sdzx ∧
        row.age = max prev_row.age next_row.age ∧
        row.ratio = max prev_row.ratio next_row.ratio := by
  have hcond : ¬(t = tmin ∧ invalid.card = 1) := by
    rintro ⟨h1, -⟩
    omega
  have hprev := prevEpoch_eq (seriesAt dataframes r) t p hp hplt hpmax
  have hnext := nextEpoch_eq (seriesAt dataframes r) t nx hn hnlt hnmin
  refine ⟨dataframes.set r
      (setAt (seriesAt dataframes r) t (interiorSynth prev_row next_row)),
    ?_, ?_, interiorSynth prev_row next_row, ?_,
    rfl, rfl, rfl, rfl, rfl, rfl, rfl, rfl, rfl, rfl, rfl, rfl, rfl⟩
  · simp only [repairRover, if_neg hcond, if_pos ht, interiorRepair,
      hprev, hnext, hpr, hnr]
  · intro i hi
    exact seriesAt_set_ne dataframes r i _ hi
  · rw [seriesAt_set_self dataframes r _ hr, getAt_setAt_self]

/-- Witness for C5: a rover missing epoch 2 with neighbours at epochs 1
and 3 is repaired from its own series. -/
theorem interior_repair_spec_witness :
    ∃ dataframes',
      repairRover [serMid, serB] {0} 0 2 0 = some dataframes' ∧
      (∀ i, i ≠ 0 → seriesAt dataframes' i = seriesAt [serMid, serB] i) ∧
      ∃ row, getAt (seriesAt dataframes' 0) 2 = some row ∧
        row.x = (rowA.x + rowB.x) / 2 ∧
        row.sdx = max rowA.sdx rowB.sdx ∧
        row.q = min rowA.q rowB.q := by
  obtain ⟨d, hd, hother, row, hrow, hx, -, -, hq, -, hsdx, -⟩ :=
    interior_repair_spec [serMid, serB] {0} 0 2 0 1 3 rowA rowB
      (by decide) (by decide) (by decide) (by decide) (by decide)
      (by decide) (by decide) (by decide) (by decide) (by decide)
  exact ⟨d, hd, hother, row, hrow, hx, hsdx, hq⟩

/-- C9.  If, after the validity check and the repair phase at epoch `t`,
some rover still has no record at `t`, the epoch step returns no fused
record at all — the fusion lookups raise instead of substituting a default
row — and the whole run from that epoch yields nothing. -/
theorem step_fails_on_missing (dataframes dataframes' : List Series)
    (thesholds : Nat → Nat → Option ℚ) (tmin t : Nat) (invalid : Finset Nat)
    (h1 : checkValidity dataframes thesholds t = some invalid)
    (h2 : (if 0 < invalid.card then repairAll dataframes invalid tmin t
           else some dataframes) = some dataframes')
    (r : Nat) (hr : r < dataframes'.length)
    (hmiss : getAt (seriesAt dataframes' r) t = none) :
    stepEpoch dataframes thesholds tmin t = none ∧
    ∀ fuel, runLoop thesholds tmin (fuel + 1) dataframes t = none := by
  have hfuse : fuseAt dataframes' t = none := by
    rw [fuseAt, lookupAll_eq_none dataframes' t r hr hmiss]
    rfl
  have hstep : stepEpoch dataframes thesholds tmin t = none := by
    simp only [stepEpoch, h1, h2, hfuse]
  exact ⟨hstep, fun fuel => by simp [runLoop, hstep]⟩

/-- Witness for C9: the first global epoch with two rovers missing their
record (neither repair branch applies) makes the epoch step fail. -/
theorem step_fails_on_missing_witness :
    stepEpoch [serW0, serW1, serW1] thrAll 0 0 =
      (none : Option (List Series × PosRecord)) ∧
    runLoop thrAll 0 2 [serW0, serW1, serW1] 0 =
      (none : Option (List Series × List (Nat × PosRecord))) := by
  obtain ⟨h1, h2⟩ :=
    step_fails_on_missing [serW0, serW1, serW1] [serW0, serW1, serW1]
      thrAll 0 0 {2, 1} rfl (by decide) 1 (by decide) (by decide)
  exact ⟨h1, h2 1⟩

/-! The weighted fusion step. -/

theorem foldl_max_map {α β : Type} [LinearOrder β] (g : α → β) :
    ∀ (l : List α) (b : β),
      l.foldl (fun a x => max a (g x)) b = (l.map g).foldl max b
  | [], _ => rfl
  | x :: l, b => by
    rw [List.foldl_cons, List.map_cons, List.foldl_cons]
    exact foldl_max_map g l (max b (g x))

/-- C1 (amended).  When every rover has a row at `t` and the per-axis
std-devs are strictly positive, the fused row's positions are the
inverse-variance weighted means `Σ (value/sd²) / Σ (1/sd²)`; the fused
per-axis std-devs are the elementwise maxima across rovers; the fused
covariance fields dominate every rover's value and equal either the
elementwise maximum or the zero the accumulator started from (the code
clamps them from below at 0, so an all-negative covariance column fuses to
0 rather than to its maximum); and `Q`, `ns`, `age`, `ratio` are the zero
sentinel. -/
theorem fuse_spec (dataframes : List Series) (t : Nat) (rows : List PosRecord)
    (hrows : lookupAll dataframes t = some rows) (hne : rows ≠ [])
    (hsd : ∀ p ∈ rows, 0 < p.sdx ∧ 0 < p.sdy ∧ 0 < p.sdz) :
    ∃ fused, fuseAt dataframes t = some fused ∧
      fused.x = (rows.map (fun p => p.x / p.sdx ^ 2)).sum /
                (rows.map (fun p => 1 / p.sdx ^ 2)).sum ∧
      fused.y = (rows.map (fun p => p.y / p.sdy ^ 2)).sum /
                (rows.map (fun p => 1 / p.sdy ^ 2)).sum ∧
      fused.z = (rows.map (fun p => p.z / p.sdz ^ 2)).sum /
                (rows.map (fun p => 1 / p.sdz ^ 2)).sum ∧
      (fused.sdx ∈ rows.map PosRecord.sdx ∧
        ∀ v ∈ rows.map PosRecord.sdx, v ≤ fused.sdx) ∧
      (fused.sdy ∈ rows.map PosRecord.sdy ∧
        ∀ v ∈ rows.map PosRecord.sdy, v ≤ fused.sdy) ∧
      (fused.sdz ∈ rows.map PosRecord.sdz ∧
        ∀ v ∈ rows.map PosRecord.sdz, v ≤ fused.sdz) ∧
      (0 ≤ fused.sdxy ∧ (∀ v ∈ rows.map PosRecord.sdxy, v ≤ fused.sdxy) ∧
        (fused.sdxy = 0 ∨ fused.sdxy ∈ rows.map PosRecord.sdxy)) ∧
      (0 ≤ fused.sdyz ∧ (∀ v ∈ rows.map PosRecord.sdyz, v ≤ fused.sdyz) ∧
        (fused.sdyz = 0 ∨ fused.sdyz ∈ rows.map PosRecord.sdyz)) ∧
      (0 ≤ fused.sdzx ∧ (∀ v ∈ rows.map PosRecord.sdzx, v ≤ fused.sdzx) ∧
        (fused.sdzx = 0 ∨ fused.sdzx ∈ rows.map PosRecord.sdzx)) ∧
      fused.q = 0 ∧ fused.ns = 0 ∧ fused.age = 0 ∧ fused.ratio = 0 := by
  have hmain : fuseAt dataframes t = some (fuseRows rows) := by
    rw [fuseAt, hrows]
    rfl
  have hx : (fuseRows rows).x =
      (rows.map (fun r => r.x * (r.sdx ^ 2)⁻¹)).sum /
      (rows.map (fun r => (r.sdx ^ 2)⁻¹)).sum := by
    show rows.foldl (fun a r => a + r.x * (r.sdx ^ 2)⁻¹) 0 /
        rows.foldl (fun a r => a + (r.sdx ^ 2)⁻¹) 0 = _
    rw [foldl_add_eq, foldl_add_eq, zero_add, zero_add]
  have hy : (fuseRows rows).y =
      (rows.map (fun r => r.y * (r.sdy ^ 2)⁻¹)).sum /
      (rows.map (fun r => (r.sdy ^ 2)⁻¹)).sum := by
    show rows.foldl (fun a r => a + r.y * (r.sdy ^ 2)⁻¹) 0 /
        rows.foldl (fun a r => a + (r.sdy ^ 2)⁻¹) 0 = _
    rw [foldl_add_eq, foldl_add_eq, zero_add, zero_add]
  have hz : (fuseRows rows).z =
      (rows.map (fun r => r.z * (r.sdz ^ 2)⁻¹)).sum /
      (rows.map (fun r => (r.sdz ^ 2)⁻¹)).sum := by
    show rows.foldl (fun a r => a + r.z * (r.sdz ^ 2)⁻¹) 0 /
        rows.foldl (fun a r => a + (r.sdz ^ 2)⁻¹) 0 = _
    rw [foldl_add_eq, foldl_add_eq, zero_add, zero_add]
  have hsdx : (fuseRows rows).sdx = (rows.map PosRecord.sdx).foldl max 0 :=
    foldl_max_map PosRecord.sdx rows 0
  have hsdy : (fuseRows rows).sdy = (rows.map PosRecord.sdy).foldl max 0 :=
    foldl_max_map PosRecord.sdy rows 0
  have hsdz : (fuseRows rows).sdz = (rows.map PosRecord.sdz).foldl max 0 :=
    foldl_max_map PosRecord.sdz rows 0
  have hsdxy : (fuseRows rows).sdxy = (rows.map PosRecord.sdxy).foldl max 0 :=
    foldl_max_map PosRecord.sdxy rows 0
  have hsdyz : (fuseRows rows).sdyz = (rows.map PosRecord.sdyz).foldl max 0 :=
    foldl_max_map PosRecord.sdyz rows 0
  have hsdzx : (fuseRows rows).sdzx = (rows.map PosRecord.sdzx).foldl max 0 :=
    foldl_max_map PosRecord.sdzx rows 0
  have hmapne : ∀ (g : PosRecord → ℚ), rows.map g ≠ [] := by
    intro g h
    exact hne (List.map_eq_nil_iff.1 h)
  refine ⟨fuseRows rows, hmain, ?_, ?_, ?_, ?_, ?_, ?_, ?_, ?_, ?_,
    rfl, rfl, rfl, rfl⟩
  · rw [hx]
    simp [div_eq_mul_inv]
  · rw [hy]
    simp [div_eq_mul_inv]
  · rw [hz]
    simp [div_eq_mul_inv]
  · rw [hsdx]
    refine ⟨foldl_max_mem _ 0 (hmapne _) ?_, ?_⟩
    · intro v hv
      obtain ⟨p, hp, hpv⟩ := List.mem_map.1 hv
      exact le_of_lt (hpv ▸ (hsd p hp).1)
    · intro v hv
      exact foldl_max_le_of_mem _ 0 v hv
  · rw [hsdy]
    refine ⟨foldl_max_mem _ 0 (hmapne _) ?_, ?_⟩
    · intro v hv
      obtain ⟨p, hp, hpv⟩ := List.mem_map.1 hv
      exact le_of_lt (hpv ▸ (hsd p hp).2.1)
    · intro v hv
      exact foldl_max_le_of_mem _ 0 v hv
  · rw [hsdz]
    refine ⟨foldl_max_mem _ 0 (hmapne _) ?_, ?_⟩
    · intro v hv
      obtain ⟨p, hp, hpv⟩ := List.mem_map.1 hv
      exact le_of_lt (hpv ▸ (hsd p hp).2.2)
    · intro v hv
      exact foldl_max_le_of_mem _ 0 v hv
  · rw [hsdxy]
    exact ⟨le_foldl_max _ 0, fun v hv => foldl_max_le_of_mem _ 0 v hv,
      foldl_max_cases _ 0⟩
  · rw [hsdyz]
    exact ⟨le_foldl_max _ 0, fun v hv => foldl_max_le_of_mem _ 0 v hv,
      foldl_max_cases _ 0⟩
  · rw [hsdzx]
    exact ⟨le_foldl_max _ 0, fun v hv => foldl_max_le_of_mem _ 0 v hv,
      foldl_max_cases _ 0⟩

/-- Counterexample for C1 as stated: with both rovers reporting strictly
positive per-axis std-devs but negative `sdxy` covariances, the fused
`sdxy` is the clamped 0, not the elementwise maximum `-1`. -/
theorem fuse_cov_counterexample :
    lookupAll [serA, serB] 0 = some [rowA, rowB] ∧
    (0 < rowA.sdx ∧ 0 < rowA.sdy ∧ 0 < rowA.sdz) ∧
    (0 < rowB.sdx ∧ 0 < rowB.sdy ∧ 0 < rowB.sdz) ∧
    (fuseAt [serA, serB] 0).map PosRecord.sdxy = some 0 ∧
    max rowA.sdxy rowB.sdxy = -1 ∧ (0 : ℚ) ≠ -1 := by
  refine ⟨by decide, by decide, by decide, by decide, by decide, by decide⟩

/-- Witness for C1's amended statement at a concrete two-rover epoch. -/
theorem fuse_spec_witness :
    ∃ fused, fuseAt [serA, serB] 0 = some fused ∧
      fused.x = ([rowA, rowB].map (fun p => p.x / p.sdx ^ 2)).sum /
                ([rowA, rowB].map (fun p => 1 / p.sdx ^ 2)).sum ∧
      fused.q = 0 ∧ fused.ns = 0 ∧ fused.age = 0 ∧ fused.ratio = 0 := by
  obtain ⟨fused, hf, hx, -, -, -, -, -, -, -, -, hq, hns, hage, hratio⟩ :=
    fuse_spec [serA, serB] 0 [rowA, rowB] (by decide) (by decide) (by decide)
  exact ⟨fused, hf, hx, hq, hns, hage, hratio⟩

/-! Monotonicity of the weighted mean in one rover's precision. -/

theorem fuseRows_x (rows : List PosRecord) :
    (fuseRows rows).x = (rows.map (fun r => r.x * (r.sdx ^ 2)⁻¹)).sum /
      (rows.map (fun r => (r.sdx ^ 2)⁻¹)).sum := by
  show rows.foldl (fun a r => a + r.x * (r.sdx ^ 2)⁻¹) 0 /
      rows.foldl (fun a r => a + (r.sdx ^ 2)⁻¹) 0 = _
  rw [foldl_add_eq, foldl_add_eq, zero_add, zero_add]

theorem wmean_toward (S W x w w' : ℚ) (hW : 0 < W) (hw : 0 < w)
    (hww' : w < w') (hC : S ≠ x * W) :
    |(S + x * w') / (W + w') - x| < |(S + x * w) / (W + w) - x| ∧
    0 < ((S + x * w) / (W + w) - x) * ((S + x * w') / (W + w') - x) := by
  have hWw : (0 : ℚ) < W + w := by linarith
  have hWw' : (0 : ℚ) < W + w' := by linarith
  have key : ∀ u : ℚ, 0 < u → (S + x * u) / (W + u) - x = (S - x * W) / (W + u) := by
    intro u hu
    have hu' : W + u ≠ 0 := by positivity
    field_simp
    ring
  have hCne : S - x * W ≠ 0 := sub_ne_zero.2 hC
  rw [key w hw, key w' (lt_trans hw hww')]
  constructor
  · rw [abs_div, abs_div, abs_of_pos hWw, abs_of_pos hWw']
    exact div_lt_div_of_pos_left (abs_pos.2 hCne) hWw (by linarith)
  · rw [div_mul_div_comm]
    exact div_pos (mul_self_pos.2 hCne) (mul_pos hWw hWw')

/-- C8 (amended).  Fix an epoch's rows as `a ++ r :: b` with strictly
positive `sdx` everywhere and at least one other rover.  If the other
rovers' inverse-variance weighted information differs from `r`'s position
(equivalently, the weighted mean of the others is not already `r.x`),
then tightening `r`'s std-dev to any smaller positive `s'` moves the
fused x strictly toward `r.x`, staying on the same side of it.  (When the
others' weighted mean equals `r.x` the fused value is `r.x` before and
after and cannot move strictly, which is the counterexample to the claim
as stated.) -/
theorem fuse_monotone (a b : List PosRecord) (r : PosRecord) (s' : ℚ)
    (hposa : ∀ p ∈ a ++ b, 0 < p.sdx) (hrpos : 0 < r.sdx)
    (hs' : 0 < s') (hlt : s' < r.sdx)
    (hne : a ++ b ≠ [])
    (hdiff : ((a ++ b).map (fun p => p.x * (p.sdx ^ 2)⁻¹)).sum ≠
      r.x * ((a ++ b).map (fun p => (p.sdx ^ 2)⁻¹)).sum) :
    |(fuseRows (a ++ { r with sdx := s' } :: b)).x - r.x| <
      |(fuseRows (a ++ r :: b)).x - r.x| ∧
    0 < ((fuseRows (a ++ r :: b)).x - r.x) *
        ((fuseRows (a ++ { r with sdx := s' } :: b)).x - r.x) := by
  have hW : 0 < ((a ++ b).map (fun p => (p.sdx ^ 2)⁻¹)).sum := by
    apply List.sum_pos
    · intro v hv
      obtain ⟨p, hp, hpv⟩ := List.mem_map.1 hv
      rw [← hpv]
      have := hposa p hp
      positivity
    · simpa using hne
  have hw : (0 : ℚ) < (r.sdx ^ 2)⁻¹ := by positivity
  have hsq : s' ^ 2 < r.sdx ^ 2 :=
    pow_lt_pow_left₀ hlt (le_of_lt hs') (by norm_num)
  have hww' : (r.sdx ^ 2)⁻¹ < (s' ^ 2)⁻¹ := by
    apply inv_strictAnti₀
    · positivity
    · exact hsq
  have e1 : ((a ++ r :: b).map (fun p => p.x * (p.sdx ^ 2)⁻¹)).sum =
      ((a ++ b).map (fun p => p.x * (p.sdx ^ 2)⁻¹)).sum +
        r.x * (r.sdx ^ 2)⁻¹ := by
    simp [List.sum_append]
    ring
  have e2 : ((a ++ r :: b).map (fun p => (p.sdx ^ 2)⁻¹)).sum =
      ((a ++ b).map (fun p => (p.sdx ^ 2)⁻¹)).sum + (r.sdx ^ 2)⁻¹ := by
    simp [List.sum_append]
    ring
  have e3 : ((a ++ { r with sdx := s' } :: b).map
        (fun p => p.x * (p.sdx ^ 2)⁻¹)).sum =
      ((a ++ b).map (fun p => p.x * (p.sdx ^ 2)⁻¹)).sum +
        r.x * (s' ^ 2)⁻¹ := by
    simp [List.sum_append]
    ring
  have e4 : ((a ++ { r with sdx := s' } :: b).map
        (fun p => (p.sdx ^ 2)⁻¹)).sum =
      ((a ++ b).map (fun p => (p.sdx ^ 2)⁻¹)).sum + (s' ^ 2)⁻¹ := by
    simp [List.sum_append]
    ring
  rw [fuseRows_x, fuseRows_x, e1, e2, e3, e4]
  exact wmean_toward _ _ r.x _ _ hW hw hww' hdiff

/-- Counterexample for C8 as stated: three rovers at `x = 5, 4, 6` with
unit std-devs satisfy the claim's premises (two distinct positions,
positive std-devs), yet tightening the first rover's `sdx` to `1/2`
leaves the fused x at 5 — it does not move strictly toward the rover's
value. -/
theorem fuse_monotone_counterexample :
    rowP4.x ≠ rowP6.x ∧
    (0 < rowP5.sdx ∧ 0 < rowP4.sdx ∧ 0 < rowP6.sdx) ∧
    0 < rowP5s.sdx ∧ rowP5s.sdx < rowP5.sdx ∧ rowP5s.x = rowP5.x ∧
    (fuseRows [rowP5, rowP4, rowP6]).x = rowP5.x ∧
    (fuseRows [rowP5s, rowP4, rowP6]).x = rowP5.x ∧
    ¬(|(fuseRows [rowP5s, rowP4, rowP6]).x - rowP5.x| <
      |(fuseRows [rowP5, rowP4, rowP6]).x - rowP5.x|) := by
  refine ⟨by decide, by decide, by decide, by decide, by decide,
    by decide, by decide, by decide⟩

/-- Witness for C8's amended statement: two rovers at `x = 0` and `x = 2`;
tightening the second rover's `sdx` from 1 to `1/2` moves the fused x
strictly toward 2. -/
theorem fuse_monotone_witness :
    |(fuseRows ([rowA] ++ { rowB with sdx := 1/2 } :: [])).x - rowB.x| <
      |(fuseRows ([rowA] ++ rowB :: [])).x - rowB.x| ∧
    0 < ((fuseRows ([rowA] ++ rowB :: [])).x - rowB.x) *
        ((fuseRows ([rowA] ++ { rowB with sdx := 1/2 } :: [])).x - rowB.x) :=
  fuse_monotone [rowA] [] rowB (1/2) (by decide) (by decide) (by decide)
    (by decide) (by decide) (by decide)

/-! The boundary branch of gap repair. -/

theorem boundaryFold_eq (invalid : Finset Nat) (t : Nat) :
    ∀ (l : List (Nat × Series)) (acc : PosRecord),
      boundaryFold invalid t l acc =
        (validRows invalid t l).map (fun rows => rows.foldl accRow acc)
  | [], acc => rfl
  | (k, df) :: rest, acc => by
    rw [boundaryFold, validRows]
    by_cases hk : k ∈ invalid
    · rw [if_pos hk, if_pos hk]
      exact boundaryFold_eq invalid t rest acc
    · rw [if_neg hk, if_neg hk]
      cases hget : getAt df t with
      | none => simp only [hget]; rfl
      | some r =>
        simp only [hget]
        rw [boundaryFold_eq invalid t rest (accRow acc r), Option.map_map]
        cases validRows invalid t rest <;> rfl

theorem validRows_length (invalid : Finset Nat) (t : Nat) :
    ∀ (l : List (Nat × Series)) (rows : List PosRecord),
      validRows invalid t l = some rows →
      rows.length = (l.filter (fun kd => kd.1 ∉ invalid)).length
  | [], rows, h => by
    simp only [validRows, Option.some.injEq] at h
    subst h
    rfl
  | (k, df) :: rest, rows, h => by
    rw [validRows] at h
    by_cases hk : k ∈ invalid
    · rw [if_pos hk] at h
      rw [List.filter_cons]
      simp only [hk]
      simpa using validRows_length invalid t rest rows h
    · rw [if_neg hk] at h
      cases hget : getAt df t with
      | none => rw [hget] at h; cases h
      | some r =>
        rw [hget] at h
        cases hrest : validRows invalid t rest with
        | none => rw [hrest] at h; cases h
        | some rows' =>
          rw [hrest] at h
          simp only [Option.map_some', Option.some.injEq] at h
          subst h
          rw [List.filter_cons]
          simp only [hk]
          simpa using validRows_length invalid t rest rows' hrest

theorem countP_ne_range (r : Nat) : ∀ (n : Nat), r < n →
    (List.range n).countP (fun k => k ≠ r) = n - 1
  | 0, h => absurd h (by omega)
  | n + 1, h => by
    rw [List.range_succ, List.countP_append]
    by_cases hrn : r = n
    · subst hrn
      have hall : ∀ a ∈ List.range r, (fun k => decide (k ≠ r)) a = true := by
        intro a ha
        have hlt := List.mem_range.1 ha
        simp only [decide_eq_true_eq]
        omega
      have h1 : (List.range r).countP (fun k => decide (k ≠ r)) = r := by
        rw [List.countP_eq_length.2 hall, List.length_range]
      have h2 : List.countP (fun k => decide (k ≠ r)) [r] = 0 := by
        simp [List.countP_cons]
      omega
    · have hrlt : r < n := by omega
      have h1 := countP_ne_range r n hrlt
      have hnr : n ≠ r := fun h' => hrn h'.symm
      have h2 : List.countP (fun k => decide (k ≠ r)) [n] = 1 := by
        simp [List.countP_cons, hnr]
      omega

theorem enum_filter_not_mem_singleton (dataframes : List Series) (r : Nat)
    (hr : r < dataframes.length) :
    (dataframes.enum.filter
      (fun kd => kd.1 ∉ ({r} : Finset Nat))).length =
      dataframes.length - 1 := by
  rw [← List.countP_eq_length_filter]
  have hcongr : dataframes.enum.countP (fun kd => kd.1 ∉ ({r} : Finset Nat)) =
      dataframes.enum.countP (fun kd => kd.1 ≠ r) := by
    apply List.countP_congr
    intro kd _
    simp
  rw [hcongr]
  have hmap : dataframes.enum.countP (fun kd => kd.1 ≠ r) =
      (dataframes.enum.map Prod.fst).countP (fun k => k ≠ r) := by
    rw [List.countP_map]
    rfl
  rw [hmap, List.enum_map_fst]
  exact countP_ne_range r dataframes.length hr

theorem foldl_accRow_proj {β : Type} (g : PosRecord → β) (op : β → β → β)
    (hop : ∀ a r, g (accRow a r) = op (g a) (g r)) :
    ∀ (rows : List PosRecord) (acc : PosRecord),
      g (rows.foldl accRow acc) = (rows.map g).foldl op (g acc)
  | [], _ => rfl
  | r :: rows, acc => by
    rw [List.foldl_cons, List.map_cons, List.foldl_cons, ← hop]
    exact foldl_accRow_proj g op hop rows (accRow acc r)

theorem foldl_plus (l : List ℚ) (c : ℚ) : l.foldl (· + ·) c = c + l.sum := by
  have h := foldl_add_eq (fun x => x) l c
  simpa using h

/-- C4 (amended).  At the first epoch with exactly one invalid rover `r`,
the boundary repair writes into `r`'s series at `t` a record whose
positions are the arithmetic means of the valid rovers' positions (the sum
divided by the count of valid rovers, which is the rover count minus one);
whose std-devs are the elementwise maxima of the valid rovers' values and
whose covariances are those maxima clamped from below at the zero the
accumulator starts from; whose `fixQuality` is zero (the code folds `min`
from a zero sentinel, which for the non-negative quality codes is always
zero, not the elementwise minimum the spec describes); and whose `ns`,
`age` and `ratio` are the elementwise maxima. -/
theorem boundary_repair_spec (dataframes : List Series) (t r : Nat)
    (rows : List PosRecord)
    (hr : r < dataframes.length)
    (hrows : validRows {r} t dataframes.enum = some rows)
    (hne : rows ≠ [])
    (hsd : ∀ p ∈ rows, 0 < p.sdx ∧ 0 < p.sdy ∧ 0 < p.sdz)
    (hnn : ∀ p ∈ rows, 0 ≤ p.q ∧ 0 ≤ p.ns ∧ 0 ≤ p.age ∧ 0 ≤ p.ratio) :
    ∃ dataframes',
      repairRover dataframes {r} t t r = some dataframes' ∧
      rows.length = dataframes.length - 1 ∧
      (∀ i, i ≠ r → seriesAt dataframes' i = seriesAt dataframes i) ∧
      ∃ row, getAt (seriesAt dataframes' r) t = some row ∧
        row.x = (rows.map PosRecord.x).sum / (rows.length : ℚ) ∧
        row.y = (rows.map PosRecord.y).sum / (rows.length : ℚ) ∧
        row.z = (rows.map PosRecord.z).sum / (rows.length : ℚ) ∧
        row.q = 0 ∧
        (row.ns ∈ rows.map PosRecord.ns ∧
          ∀ v ∈ rows.map PosRecord.ns, v ≤ row.ns) ∧
        (row.sdx ∈ rows.map PosRecord.sdx ∧
          ∀ v ∈ rows.map PosRecord.sdx, v ≤ row.sdx) ∧
        (row.sdy ∈ rows.map PosRecord.sdy ∧
          ∀ v ∈ rows.map PosRecord.sdy, v ≤ row.sdy) ∧
        (row.sdz ∈ rows.map PosRecord.sdz ∧
          ∀ v ∈ rows.map PosRecord.sdz, v ≤ row.sdz) ∧
        (0 ≤ row.sdxy ∧ (∀ v ∈ rows.map PosRecord.sdxy, v ≤ row.sdxy) ∧
          (row.sdxy = 0 ∨ row.sdxy ∈ rows.map PosRecord.sdxy)) ∧
        (0 ≤ row.sdyz ∧ (∀ v ∈ rows.map PosRecord.sdyz, v ≤ row.sdyz) ∧
          (row.sdyz = 0 ∨ row.sdyz ∈ rows.map PosRecord.sdyz)) ∧
        (0 ≤ row.sdzx ∧ (∀ v ∈ rows.map PosRecord.sdzx, v ≤ row.sdzx) ∧
          (row.sdzx = 0 ∨ row.sdzx ∈ rows.map PosRecord.sdzx)) ∧
        (row.age ∈ rows.map PosRecord.age ∧
          ∀ v ∈ rows.map PosRecord.age, v ≤ row.age) ∧
        (row.ratio ∈ rows.map PosRecord.ratio ∧
          ∀ v ∈ rows.map PosRecord.ratio, v ≤ row.ratio) := by
  have hlen : rows.length = dataframes.length - 1 := by
    rw [validRows_length {r} t dataframes.enum rows hrows]
    exact enum_filter_not_mem_singleton dataframes r hr
  have hcard : ({r} : Finset Nat).card = 1 := Finset.card_singleton r
  have hacc : boundaryFold {r} t dataframes.enum zeroRow =
      some (rows.foldl accRow zeroRow) := by
    rw [boundaryFold_eq, hrows]
    rfl
  have hcast : ((dataframes.length - ({r} : Finset Nat).card : Nat) : ℚ) =
      (rows.length : ℚ) := by
    rw [hcard, hlen]
  set acc := rows.foldl accRow zeroRow with hacc_def
  have hmain : repairRover dataframes {r} t t r =
      some (dataframes.set r (setAt (seriesAt dataframes r) t
        { acc with
          x := acc.x / ((dataframes.length - ({r} : Finset Nat).card : Nat) : ℚ),
          y := acc.y / ((dataframes.length - ({r} : Finset Nat).card : Nat) : ℚ),
          z := acc.z / ((dataframes.length - ({r} : Finset Nat).card : Nat) : ℚ) })) := by
    rw [repairRover, if_pos ⟨rfl, hcard⟩, boundaryRepair, hacc]
  have hmapne : ∀ {β : Type} (g : PosRecord → β), rows.map g ≠ [] := by
    intro β g h
    exact hne (List.map_eq_nil_iff.1 h)
  have hx : acc.x = (rows.map PosRecord.x).sum := by
    rw [hacc_def, foldl_accRow_proj PosRecord.x (· + ·) (fun _ _ => rfl),
      foldl_plus]
    simp [zeroRow]
  have hy : acc.y = (rows.map PosRecord.y).sum := by
    rw [hacc_def, foldl_accRow_proj PosRecord.y (· + ·) (fun _ _ => rfl),
      foldl_plus]
    simp [zeroRow]
  have hz : acc.z = (rows.map PosRecord.z).sum := by
    rw [hacc_def, foldl_accRow_proj PosRecord.z (· + ·) (fun _ _ => rfl),
      foldl_plus]
    simp [zeroRow]
  have hq : acc.q = 0 := by
    rw [hacc_def, foldl_accRow_proj PosRecord.q min (fun _ _ => rfl)]
    exact foldl_min_eq_init _ _ (fun v hv => by
      obtain ⟨p, hp, hpv⟩ := List.mem_map.1 hv
      exact hpv ▸ (hnn p hp).1)
  have hns : acc.ns = (rows.map PosRecord.ns).foldl max 0 :=
    foldl_accRow_proj PosRecord.ns max (fun _ _ => rfl) rows zeroRow
  have hsdx : acc.sdx = (rows.map PosRecord.sdx).foldl max 0 :=
    foldl_accRow_proj PosRecord.sdx max (fun _ _ => rfl) rows zeroRow
  have hsdy : acc.sdy = (rows.map PosRecord.sdy).foldl max 0 :=
    foldl_accRow_proj PosRecord.sdy max (fun _ _ => rfl) rows zeroRow
  have hsdz : acc.sdz = (rows.map PosRecord.sdz).foldl max 0 :=
    foldl_accRow_proj PosRecord.sdz max (fun _ _ => rfl) rows zeroRow
  have hsdxy : acc.sdxy = (rows.map PosRecord.sdxy).foldl max 0 :=
    foldl_accRow_proj PosRecord.sdxy max (fun _ _ => rfl) rows zeroRow
  have hsdyz : acc.sdyz = (rows.map PosRecord.sdyz).foldl max 0 :=
    foldl_accRow_proj PosRecord.sdyz max (fun _ _ => rfl) rows zeroRow
  have hsdzx : acc.sdzx = (rows.map PosRecord.sdzx).foldl max 0 :=
    foldl_accRow_proj PosRecord.sdzx max (fun _ _ => rfl) rows zeroRow
  have hage : acc.age = (rows.map PosRecord.age).foldl max 0 :=
    foldl_accRow_proj PosRecord.age max (fun _ _ => rfl) rows zeroRow
  have hratio : acc.ratio = (rows.map PosRecord.ratio).foldl max 0 :=
    foldl_accRow_proj PosRecord.ratio max (fun _ _ => rfl) rows zeroRow
  refine ⟨_, hmain, hlen, ?_, ?_⟩
  · intro i hi
    exact seriesAt_set_ne dataframes r i _ hi
  refine ⟨{ acc with
      x := acc.x / ((dataframes.length - ({r} : Finset Nat).card : Nat) : ℚ),
      y := acc.y / ((dataframes.length - ({r} : Finset Nat).card : Nat) : ℚ),
      z := acc.z / ((dataframes.length - ({r} : Finset Nat).card : Nat) : ℚ) },
    ?_, ?_, ?_, ?_, ?_, ?_, ?_, ?_, ?_, ?_, ?_, ?_, ?_, ?_⟩
  · rw [seriesAt_set_self dataframes r _ hr, getAt_setAt_self]
  · show acc.x / _ = _
    rw [hx, hcast]
  · show acc.y / _ = _
    rw [hy, hcast]
  · show acc.z / _ = _
    rw [hz, hcast]
  · exact hq
  · show acc.ns ∈ rows.map PosRecord.ns ∧ ∀ v ∈ rows.map PosRecord.ns, v ≤ acc.ns
    rw [hns]
    refine ⟨foldl_max_mem _ 0 (hmapne _) ?_, ?_⟩
    · intro v hv
      obtain ⟨p, hp, hpv⟩ := List.mem_map.1 hv
      exact hpv ▸ (hnn p hp).2.1
    · intro v hv
      exact foldl_max_le_of_mem _ 0 v hv
  · show acc.sdx ∈ _ ∧ _
    rw [hsdx]
    refine ⟨foldl_max_mem _ 0 (hmapne _) ?_, ?_⟩
    · intro v hv
      obtain ⟨p, hp, hpv⟩ := List.mem_map.1 hv
      exact le_of_lt (hpv ▸ (hsd p hp).1)
    · intro v hv
      exact foldl_max_le_of_mem _ 0 v hv
  · show acc.sdy ∈ _ ∧ _
    rw [hsdy]
    refine ⟨foldl_max_mem _ 0 (hmapne _) ?_, ?_⟩
    · intro v hv
      obtain ⟨p, hp, hpv⟩ := List.mem_map.1 hv
      exact le_of_lt (hpv ▸ (hsd p hp).2.1)
    · intro v hv
      exact foldl_max_le_of_mem _ 0 v hv
  · show acc.sdz ∈ _ ∧ _
    rw [hsdz]
    refine ⟨foldl_max_mem _ 0 (hmapne _) ?_, ?_⟩
    · intro v hv
      obtain ⟨p, hp, hpv⟩ := List.mem_map.1 hv
      exact le_of_lt (hpv ▸ (hsd p hp).2.2)
    · intro v hv
      exact foldl_max_le_of_mem _ 0 v hv
  · show (0 : ℚ) ≤ acc.sdxy ∧ _
    rw [hsdxy]
    exact ⟨le_foldl_max _ 0, fun v hv => foldl_max_le_of_mem _ 0 v hv,
      foldl_max_cases _ 0⟩
  · show (0 : ℚ) ≤ acc.sdyz ∧ _
    rw [hsdyz]
    exact ⟨le_foldl_max _ 0, fun v hv => foldl_max_le_of_mem _ 0 v hv,
      foldl_max_cases _ 0⟩
  · show (0 : ℚ) ≤ acc.sdzx ∧ _
    rw [hsdzx]
    exact ⟨le_foldl_max _ 0, fun v hv => foldl_max_le_of_mem _ 0 v hv,
      foldl_max_cases _ 0⟩
  · show acc.age ∈ _ ∧ _
    rw [hage]
    refine ⟨foldl_max_mem _ 0 (hmapne _) ?_, ?_⟩
    · intro v hv
      obtain ⟨p, hp, hpv⟩ := List.mem_map.1 hv
      exact hpv ▸ (hnn p hp).2.2.1
    · intro v hv
      exact foldl_max_le_of_mem _ 0 v hv
  · show acc.ratio ∈ _ ∧ _
    rw [hratio]
    refine ⟨foldl_max_mem _ 0 (hmapne _) ?_, ?_⟩
    · intro v hv
      obtain ⟨p, hp, hpv⟩ := List.mem_map.1 hv
      exact hpv ▸ (hnn p hp).2.2.2
    · intro v hv
      exact foldl_max_le_of_mem _ 0 v hv

/-- Counterexample for C4 as stated: at `t = t_min = 0`, rover 0 is the
only invalid rover (its record is missing) and the valid rovers have
quality codes 1 and 2, so the claimed elementwise minimum is 1 — but the
synthesized record's `fixQuality` is 0, the sentinel the fold starts
from.  (Positions and std-devs do follow the claim: `x = (100+102)/2`
and `sdx = max 1 2`.) -/
theorem boundary_repair_counterexample :
    checkValidity [serGap, serV1, serV2] thrAll 0 = some {0} ∧
    (repairAll [serGap, serV1, serV2] {0} 0 0).map
      (fun d => (getAt (seriesAt d 0) 0).map
        (fun row => (row.x, row.sdx, row.q))) =
      some (some (101, 2, 0)) ∧
    min rowV1.q rowV2.q = 1 ∧ (0 : ℤ) ≠ 1 := by
  refine ⟨by decide, by decide, by decide, by decide⟩

/-- Witness for C4's amended statement at the same concrete input
(`x = (100+102)/2 = 101`, `sdx = max 1 2 = 2`, `fixQuality = 0`). -/
theorem boundary_repair_spec_witness :
    ∃ dataframes',
      repairRover [serGap, serV1, serV2] {0} 0 0 0 = some dataframes' ∧
      ∃ row, getAt (seriesAt dataframes' 0) 0 = some row ∧
        row.x = ([rowV1, rowV2].map PosRecord.x).sum / 2 ∧
        row.q = 0 ∧
        row.sdx ∈ [rowV1, rowV2].map PosRecord.sdx := by
  obtain ⟨d, hd, hlen, hother, row, hrow, hx, -, -, hq, -, hsdx, -⟩ :=
    boundary_repair_spec [serGap, serV1, serV2] 0 0 [rowV1, rowV2]
      (by decide) (by decide) (by decide) (by decide) (by decide)
  exact ⟨d, hd, row, hrow, by simpa using hx, hq, hsdx.1⟩

/-! Characterization of the cross-rover validity check. -/

theorem InnerHit_cons (dataframes : List Series)
    (thesholds : Nat → Nat → Option ℚ) (t kI : Nat) (rI : PosRecord)
    (kJ : Nat) (rest : List Nat) (m : Nat) :
    InnerHit dataframes thesholds t kI rI (kJ :: rest) m ↔
      (kI < kJ ∧
        ((getAt (seriesAt dataframes kJ) t = none ∧ m = kJ) ∨
         (∃ rJ thr, getAt (seriesAt dataframes kJ) t = some rJ ∧
            thesholds kI kJ = some thr ∧ exceeds (dist2 rI rJ) thr = true ∧
            (m = kI ∨ m = kJ)))) ∨
      InnerHit dataframes thesholds t kI rI rest m := by
  constructor
  · rintro ⟨kJ', hkJ', hP⟩
    rcases List.mem_cons.1 hkJ' with h | h
    · subst h
      exact Or.inl hP
    · exact Or.inr ⟨kJ', h, hP⟩
  · rintro (hP | ⟨kJ', h, hP⟩)
    · exact ⟨kJ, List.mem_cons_self kJ rest, hP⟩
    · exact ⟨kJ', List.mem_cons_of_mem kJ h, hP⟩

theorem OuterHit_cons (dataframes : List Series)
    (thesholds : Nat → Nat → Option ℚ) (t kI : Nat) (rest : List Nat)
    (m : Nat) :
    OuterHit dataframes thesholds t (kI :: rest) m ↔
      ((getAt (seriesAt dataframes kI) t = none ∧ m = kI) ∨
       (∃ rI, getAt (seriesAt dataframes kI) t = some rI ∧
          InnerHit dataframes thesholds t kI rI
            (List.range dataframes.length) m)) ∨
      OuterHit dataframes thesholds t rest m := by
  constructor
  · rintro ⟨kI', hkI', hP⟩
    rcases List.mem_cons.1 hkI' with h | h
    · subst h
      exact Or.inl hP
    · exact Or.inr ⟨kI', h, hP⟩
  · rintro (hP | ⟨kI', h, hP⟩)
    · exact ⟨kI, List.mem_cons_self kI rest, hP⟩
    · exact ⟨kI', List.mem_cons_of_mem kI h, hP⟩

theorem innerLoop_mem (dataframes : List Series)
    (thesholds : Nat → Nat → Option ℚ) (t kI : Nat) (rI : PosRecord) :
    ∀ (l : List Nat) (inv inv' : Finset Nat),
      innerLoop dataframes thesholds t kI rI l inv = some inv' →
      ∀ m, m ∈ inv' ↔ m ∈ inv ∨ InnerHit dataframes thesholds t kI rI l m
  | [], inv, inv', h, m => by
    simp only [innerLoop, Option.some.injEq] at h
    subst h
    simp [InnerHit]
  | kJ :: rest, inv, inv', h, m => by
    rw [innerLoop] at h
    rw [InnerHit_cons]
    by_cases hkk : kI < kJ
    · rw [if_pos hkk] at h
      cases hget : getAt (seriesAt dataframes kJ) t with
      | none =>
        simp only [hget] at h
        rw [innerLoop_mem dataframes thesholds t kI rI rest _ _ h m]
        simp [hget, hkk, Finset.mem_insert]
        tauto
      | some rJ =>
        simp only [hget] at h
        cases hthr : thesholds kI kJ with
        | none =>
          simp only [hthr] at h
          cases h
        | some thr =>
          simp only [hthr] at h
          by_cases hex : exceeds (dist2 rI rJ) thr = true
          · rw [if_pos hex] at h
            rw [innerLoop_mem dataframes thesholds t kI rI rest _ _ h m]
            simp [hget, hthr, hex, hkk, Finset.mem_insert]
            tauto
          · rw [if_neg hex] at h
            rw [innerLoop_mem dataframes thesholds t kI rI rest _ _ h m]
            simp [hget, hthr, hex, hkk]
    · rw [if_neg hkk] at h
      rw [innerLoop_mem dataframes thesholds t kI rI rest _ _ h m]
      simp [hkk]

theorem outerLoop_mem (dataframes : List Series)
    (thesholds : Nat → Nat → Option ℚ) (t : Nat) :
    ∀ (l : List Nat) (inv inv' : Finset Nat),
      outerLoop dataframes thesholds t l inv = some inv' →
      ∀ m, m ∈ inv' ↔ m ∈ inv ∨ OuterHit dataframes thesholds t l m
  | [], inv, inv', h, m => by
    simp only [outerLoop, Option.some.injEq] at h
    subst h
    simp [OuterHit]
  | kI :: rest, inv, inv', h, m => by
    rw [outerLoop] at h
    rw [OuterHit_cons]
    cases hget : getAt (seriesAt dataframes kI) t with
    | none =>
      simp only [hget] at h
      rw [outerLoop_mem dataframes thesholds t rest _ _ h m]
      simp [hget, Finset.mem_insert]
      tauto
    | some rI =>
      simp only [hget] at h
      cases hin : innerLoop dataframes thesholds t kI rI
          (List.range dataframes.length) inv with
      | none =>
        simp only [hin] at h
        cases h
      | some inv1 =>
        simp only [hin] at h
        rw [outerLoop_mem dataframes thesholds t rest _ _ h m]
        rw [innerLoop_mem dataframes thesholds t kI rI _ _ _ hin m]
        simp [hget]
        tauto

theorem innerLoop_isSome (dataframes : List Series)
    (thesholds : Nat → Nat → Option ℚ) (t kI : Nat) (rI : PosRecord) :
    ∀ (l : List Nat) (inv : Finset Nat),
      (∀ kJ ∈ l, kI < kJ → getAt (seriesAt dataframes kJ) t ≠ none →
        (thesholds kI kJ).isSome = true) →
      ∃ inv', innerLoop dataframes thesholds t kI rI l inv = some inv'
  | [], inv, _ => ⟨inv, rfl⟩
  | kJ :: rest, inv, hyp => by
    rw [innerLoop]
    by_cases hkk : kI < kJ
    · rw [if_pos hkk]
      cases hget : getAt (seriesAt dataframes kJ) t with
      | none =>
        simp only [hget]
        exact innerLoop_isSome dataframes thesholds t kI rI rest _
          (fun kJ' h' => hyp kJ' (List.mem_cons_of_mem kJ h'))
      | some rJ =>
        have hthr : (thesholds kI kJ).isSome = true :=
          hyp kJ (List.mem_cons_self kJ rest) hkk (by rw [hget]; simp)
        cases hthr' : thesholds kI kJ with
        | none => rw [hthr'] at hthr; cases hthr
        | some thr =>
          simp only [hget, hthr']
          by_cases hex : exceeds (dist2 rI rJ) thr = true
          · rw [if_pos hex]
            exact innerLoop_isSome dataframes thesholds t kI rI rest _
              (fun kJ' h' => hyp kJ' (List.mem_cons_of_mem kJ h'))
          · rw [if_neg hex]
            exact innerLoop_isSome dataframes thesholds t kI rI rest _
              (fun kJ' h' => hyp kJ' (List.mem_cons_of_mem kJ h'))
    · rw [if_neg hkk]
      exact innerLoop_isSome dataframes thesholds t kI rI rest _
        (fun kJ' h' => hyp kJ' (List.mem_cons_of_mem kJ h'))

theorem outerLoop_isSome (dataframes : List Series)
    (thesholds : Nat → Nat → Option ℚ) (t : Nat) :
    ∀ (l : List Nat) (inv : Finset Nat),
      (∀ kI ∈ l, ∀ kJ, kJ < dataframes.length → kI < kJ →
        getAt (seriesAt dataframes kI) t ≠ none →
        getAt (seriesAt dataframes kJ) t ≠ none →
        (thesholds kI kJ).isSome = true) →
      ∃ inv', outerLoop dataframes thesholds t l inv = some inv'
  | [], inv, _ => ⟨inv, rfl⟩
  | kI :: rest, inv, hyp => by
    rw [outerLoop]
    cases hget : getAt (seriesAt dataframes kI) t with
    | none =>
      simp only [hget]
      exact outerLoop_isSome dataframes thesholds t rest _
        (fun kI' h' => hyp kI' (List.mem_cons_of_mem kI h'))
    | some rI =>
      obtain ⟨inv1, hinv1⟩ :=
        innerLoop_isSome dataframes thesholds t kI rI
          (List.range dataframes.length) inv
          (fun kJ hkJ hlt hpres =>
            hyp kI (List.mem_cons_self kI rest) kJ (List.mem_range.1 hkJ) hlt
              (by rw [hget]; simp) hpres)
      simp only [hget, hinv1]
      exact outerLoop_isSome dataframes thesholds t rest _
        (fun kI' h' => hyp kI' (List.mem_cons_of_mem kI h'))

theorem outerHit_iff_invalidSpec (dataframes : List Series)
    (thesholds : Nat → Nat → Option ℚ) (t m : Nat) :
    OuterHit dataframes thesholds t (List.range dataframes.length) m ↔
      InvalidSpec dataframes thesholds t m := by
  constructor
  · rintro ⟨kI, hkI, hcase⟩
    have hkIn : kI < dataframes.length := List.mem_range.1 hkI
    rcases hcase with ⟨hnone, rfl⟩ | ⟨rI, hrI, kJ, hkJ, hlt, hcc⟩
    · exact Or.inl ⟨hkIn, hnone⟩
    · have hkJn : kJ < dataframes.length := List.mem_range.1 hkJ
      rcases hcc with ⟨hnoneJ, rfl⟩ | ⟨rJ, thr, hgetJ, hthr, hex, hm⟩
      · exact Or.inl ⟨hkJn, hnoneJ⟩
      · exact Or.inr ⟨kI, kJ, ⟨hlt, hkJn, rI, rJ, thr, hrI, hgetJ, hthr, hex⟩, hm⟩
  · rintro (⟨hmn, hnone⟩ | ⟨i, j, ⟨hij, hjn, ri, rj, thr, hgi, hgj, hthr, hex⟩, hm⟩)
    · exact ⟨m, List.mem_range.2 hmn, Or.inl ⟨hnone, rfl⟩⟩
    · exact ⟨i, List.mem_range.2 (lt_trans hij hjn),
        Or.inr ⟨ri, hgi, j, List.mem_range.2 hjn, hij,
          Or.inr ⟨rj, thr, hgj, hthr, hex, hm⟩⟩⟩

/-- C3.  With a complete pair-threshold table, the validity check succeeds
and returns exactly the set described by the spec: a rover is invalid iff
its row at `t` is missing, or it is an endpoint of some pair whose rows
are both present and whose distance strictly exceeds the configured
threshold — the union over all pair checks, and nothing else. -/
theorem checkValidity_spec (dataframes : List Series)
    (thesholds : Nat → Nat → Option ℚ) (t : Nat)
    (hcomplete : ∀ i j, i < j → j < dataframes.length →
      (thesholds i j).isSome = true) :
    ∃ invalid, checkValidity dataframes thesholds t = some invalid ∧
      ∀ m, m ∈ invalid ↔ InvalidSpec dataframes thesholds t m := by
  obtain ⟨inv', h⟩ :=
    outerLoop_isSome dataframes thesholds t (List.range dataframes.length) ∅
      (fun kI _ kJ hkJ hlt _ _ => hcomplete kI kJ hlt hkJ)
  refine ⟨inv', h, fun m => ?_⟩
  rw [outerLoop_mem dataframes thesholds t _ _ _ h m]
  simp [outerHit_iff_invalidSpec]

/-- Witness for C3 at a concrete three-rover epoch (one rover missing its
record, the other two within threshold). -/
theorem checkValidity_spec_witness :
    ∃ invalid, checkValidity [serGap, serV1, serV2] thrAll 0 = some invalid ∧
      ∀ m, m ∈ invalid ↔ InvalidSpec [serGap, serV1, serV2] thrAll 0 m :=
  checkValidity_spec [serGap, serV1, serV2] thrAll 0 (fun _ _ _ _ => rfl)

/-- C10.  The threshold table is consulted only for pairs whose rovers
both have a row at `t`: if every such pair has an entry, the validity
check succeeds, even when pairs involving an absent rover have no entry. -/
theorem checkValidity_partial_thresholds (dataframes : List Series)
    (thesholds : Nat → Nat → Option ℚ) (t : Nat)
    (h : ∀ i j, i < j → j < dataframes.length →
      getAt (seriesAt dataframes i) t ≠ none →
      getAt (seriesAt dataframes j) t ≠ none →
      (thesholds i j).isSome = true) :
    ∃ invalid, checkValidity dataframes thesholds t = some invalid :=
  outerLoop_isSome dataframes thesholds t (List.range dataframes.length) ∅
    (fun kI _ kJ hkJ hlt hpI hpJ => h kI kJ hlt hkJ hpI hpJ)

/-- Witness for C10: an entirely empty threshold table cannot raise at an
epoch where one rover of every pair is absent. -/
theorem checkValidity_partial_thresholds_witness :
    ∃ invalid, checkValidity [serW0, serW1] thrNone 0 = some invalid := by
  apply checkValidity_partial_thresholds
  intro i j hij hjn hpi hpj
  have hlen : j < 2 := by simpa using hjn
  have hj1 : j = 1 := by omega
  subst hj1
  exact absurd (by decide : getAt (seriesAt [serW0, serW1] 1) 0 = none) hpj

/-! The epoch loop's coverage of the window. -/

theorem runLoop_timestamps (thesholds : Nat → Nat → Option ℚ) (tmin : Nat) :
    ∀ (fuel : Nat) (dataframes : List Series) (t : Nat)
      (d : List Series) (out : List (Nat × PosRecord)),
      runLoop thesholds tmin fuel dataframes t = some (d, out) →
      out.map Prod.fst = List.range' t fuel
  | 0, dataframes, t, d, out, h => by
    simp [runLoop] at h
    simp [h.2.symm, List.range']
  | fuel + 1, dataframes, t, d, out, h => by
    rw [runLoop] at h
    cases hstep : stepEpoch dataframes thesholds tmin t with
    | none => simp [hstep] at h
    | some p =>
      obtain ⟨dataframes', row⟩ := p
      simp only [hstep] at h
      cases hrec : runLoop thesholds tmin fuel dataframes' (t + 1) with
      | none => simp [hrec] at h
      | some q =>
        obtain ⟨d'', out'⟩ := q
        simp only [hrec, Option.some.injEq, Prod.mk.injEq] at h
        have ih := runLoop_timestamps thesholds tmin fuel dataframes' (t + 1)
          d'' out' hrec
        rw [← h.2, List.map_cons, ih]
        simp [List.range']

/-- C2 (amended).  A successful run starting at `t_min` emits exactly one
fused record per epoch of `[t_min, t_max)`, in increasing one-second
steps: the first record is at `t_min` and the last at `t_max - 1`, and no
record is emitted for `t_max` itself, because the loop condition
`current_gpst < max_gpst` excludes the upper endpoint. -/
theorem run_epochs_range (thesholds : Nat → Nat → Option ℚ)
    (dataframes : List Series) (tmin tmax : Nat)
    (d : List Series) (out : List (Nat × PosRecord))
    (h : runFrom thesholds tmin dataframes tmin tmax = some (d, out))
    (hlt : tmin < tmax) :
    out.map Prod.fst = List.range' tmin (tmax - tmin) ∧
    tmin ∈ out.map Prod.fst ∧
    tmax ∉ out.map Prod.fst ∧
    tmax - 1 ∈ out.map Prod.fst := by
  have h1 : out.map Prod.fst = List.range' tmin (tmax - tmin) :=
    runLoop_timestamps thesholds tmin (tmax - tmin) dataframes tmin d out h
  refine ⟨h1, ?_, ?_, ?_⟩
  · rw [h1, List.mem_range'_1]
    omega
  · rw [h1, List.mem_range'_1]
    omega
  · rw [h1, List.mem_range'_1]
    omega

/-- Counterexample for C2 as stated: two rover series whose union envelope
is `[0, 2]` produce fused records at epochs 0 and 1 only — there is no
record at `t_max = 2`. -/
theorem run_epochs_counterexample :
    min_gpst [serA, serB] = some 0 ∧ max_gpst [serA, serB] = some 2 ∧
    (algorithm thrAll [serA, serB]).map (fun p => p.2.map Prod.fst) =
      some [0, 1] ∧
    2 ∉ ([0, 1] : List Nat) := by
  refine ⟨by decide, by decide, by decide, by decide⟩

/-- Witness for C2's amended statement at the same concrete input. -/
theorem run_epochs_range_witness :
    ∃ d out, runFrom thrAll 0 [serA, serB] 0 2 = some (d, out) ∧
      out.map Prod.fst = List.range' 0 2 ∧
      0 ∈ out.map Prod.fst ∧ 2 ∉ out.map Prod.fst := by
  cases hres : runFrom thrAll 0 [serA, serB] 0 2 with
  | none => exact absurd hres (by decide)
  | some p =>
    obtain ⟨d, out⟩ := p
    obtain ⟨h1, h2, h3, -⟩ :=
      run_epochs_range thrAll [serA, serB] 0 2 d out hres (by decide)
    exact ⟨d, out, rfl, h1, h2, h3⟩

/-- Witness for C7 at a concrete two-rover input. -/
theorem min_max_gpst_envelope_witness :
    (∃ m, min_gpst [serA, serB] = some m ∧
      (∃ s ∈ [serA, serB], m ∈ keys s) ∧
      ∀ s ∈ [serA, serB], ∀ k ∈ keys s, m ≤ k) ∧
    (∃ M, max_gpst [serA, serB] = some M ∧
      (∃ s ∈ [serA, serB], M ∈ keys s) ∧
      ∀ s ∈ [serA, serB], ∀ k ∈ keys s, k ≤ M) :=
  min_max_gpst_envelope [serA, serB] (by decide) (by decide)

/-- C6 (code bug).  The header-skip loop consumes two lines per test
(`readline` then `next`) and therefore only detects the column-header
marker at even 0-based line offsets.  On a well-formed log whose marker is
preceded by an odd number of comment lines — here one comment line, the
marker, then one data line — the marker is discarded by `next`, the loop
scans into the body and reads past end of file, and the parse raises
`StopIteration` (`none`) instead of producing one record per data line.
With zero comment lines the same loop succeeds and hands every following
line to the body. -/
theorem skipHeader_odd_comment_crash :
    skipHeader [false, true, false] = none ∧
    skipHeader [true, false] = some [false] :=
  ⟨rfl, rfl⟩

end GNSSPos
